import Mathlib

/-!
Verification development for the ScribeAI real-time transcription pipeline.

The definitions below are a shallow embedding of the server-side code:

* `src/server/services/transcription.js` — per-chunk transcription
  (`processAudioChunk`: the speaker-line parse loop, the empty-output guard,
  the catch-all failure branch) and whole-session summarisation
  (`generateSummary`: empty-transcript guard and catch-all fallback).
* `src/server/socket-server.js` — the Socket.io event handlers
  (`start-recording`, `audio-chunk`, `pause-recording`, `resume-recording`,
  `stop-recording`) over the `activeSessions` registry.  The asynchronous
  per-chunk transcription calls are modelled by splitting each `audio-chunk`
  handler into its synchronous prefix (registry lookup, task submission) and
  a separate completion event, so that completions may interleave in any
  order, exactly as the `await` in the handler allows.
* `src/app/api/sessions/generate-summary/route.ts` — the HTTP summary
  endpoint (zod validation, success path, catch-all fallback).

The external Gemini capability is opaque: each call is modelled by the
outcome it would produce (`CapResult`), either the returned text or a
thrown error carrying a message.
-/

/-! ## Character and string utilities (JS `trim`, `split`, regex `\s`) -/

/-- Whitespace test used by the model for the JS string `trim` and the
regex class `\s` (ASCII range, which covers all inputs considered here). -/
def isWs (c : Char) : Bool :=
  c = ' ' || c = '\t' || c = '\n' || c = '\r' || c = '\x0b' || c = '\x0c'

/-- Drop leading whitespace characters. -/
def dropWs : List Char → List Char
  | [] => []
  | c :: r => if isWs c then dropWs r else c :: r

/-- Both-ends trim on character lists, modelling JS `String.prototype.trim`. -/
def trimL (l : List Char) : List Char :=
  ((dropWs ((dropWs l).reverse)).reverse)

/-- String-level trim. -/
def trimS (s : String) : String :=
  String.mk (trimL s.data)

/-- Split a character list at newline characters, modelling JS
`text.split('\n')` (always returns at least one, possibly empty, line). -/
def splitLines : List Char → List (List Char)
  | [] => [[]]
  | c :: rest =>
    match splitLines rest with
    | [] => [[]]
    | l :: ls => if c = '\n' then [] :: l :: ls else (c :: l) :: ls

/-- A line survives the JS filter `(line) => line.trim()` exactly when its
trim is non-empty. -/
def nonBlank (l : List Char) : Bool :=
  !(trimL l).isEmpty

/-- Prefix test on character lists. -/
def isPrefixOfL : List Char → List Char → Bool
  | [], _ => true
  | _ :: _, [] => false
  | p :: ps, c :: cs => p = c && isPrefixOfL ps cs

/-- Substring test on character lists (used to state what a produced
summary string contains). -/
def hasSubL (pat : List Char) : List Char → Bool
  | [] => isPrefixOfL pat []
  | c :: r => isPrefixOfL pat (c :: r) || hasSubL pat r

/-! ## The speaker-line parse of `processAudioChunk`

The JS code matches each line against the regex `^\[(.*?)\]:\s*(.+)$`.
`speakerSplit` models the part after the leading bracket: it scans for the
first occurrence of the two-character separator `]:` and requires a
non-empty remainder (the lazy group together with the backtracking
semantics of `\s*(.+)$`, followed by the `.trim()` calls the code applies
to both captured groups, is equivalent to locating the first `]:` with a
non-empty rest and trimming both sides). -/

/-- Scan for the first `]:` separator; return the characters before it and
the non-empty remainder after it, or `none` when the line does not match. -/
def speakerSplit : List Char → Option (List Char × List Char)
  | [] => none
  | [_] => none
  | c :: d :: rest =>
    if c = ']' ∧ d = ':' then
      if rest.isEmpty then none else some ([], rest)
    else
      match speakerSplit (d :: rest) with
      | some (sp, tx) => some (c :: sp, tx)
      | none => none

/-- One iteration of the parse loop in `processAudioChunk`: a line matching
the `[<speaker>]: <text>` convention yields the trimmed label and trimmed
text; any other line yields the fallback pair with label `Speaker 1` and
the trimmed whole line. -/
def parsePair (line : List Char) : String × String :=
  match line with
  | '[' :: rest =>
    match speakerSplit rest with
    | some (sp, tx) => (String.mk (trimL sp), String.mk (trimL tx))
    | none => ("Speaker 1", String.mk (trimL line))
  | _ => ("Speaker 1", String.mk (trimL line))

/-! ## Transcript segments -/

/-- Left-pad a numeral to two digits, modelling
`n.toString().padStart(2, '0')`. -/
def pad2 (n : Nat) : String :=
  if n < 10 then "0" ++ toString n else toString n

/-- `formatTimestamp` from `transcription.js`: milliseconds to `HH:MM:SS`. -/
def formatTimestamp (ms : Nat) : String :=
  let totalSeconds := ms / 1000
  let hours := totalSeconds / 3600
  let minutes := (totalSeconds % 3600) / 60
  let seconds := totalSeconds % 60
  pad2 hours ++ ":" ++ pad2 minutes ++ ":" ++ pad2 seconds

/-- The transcript-segment record emitted per parsed speaker line
(fields exactly as built at the end of `processAudioChunk`). -/
structure Segment where
  speaker : String
  text : String
  timestamp : String
  startTime : Nat
  chunkIndex : Nat
deriving DecidableEq, Repr

/-- The final `segments.map((segment, index) => ...)` of
`processAudioChunk`: attach the chunk timestamp, the per-index start
offset `chunkIndex * 30000 + index * 1000` and the chunk index. -/
def buildSegments (k : Nat) : Nat → List (String × String) → List Segment
  | _, [] => []
  | i, p :: ps =>
    { speaker := p.1
      text := p.2
      timestamp := formatTimestamp (k * 30000)
      startTime := k * 30000 + i * 1000
      chunkIndex := k } :: buildSegments k (i + 1) ps

/-- Outcome of one call to the external Gemini capability: the text it
returned, or the error it threw (timeout, error status, ...). -/
inductive CapResult
  | ok (text : String)
  | err (msg : String)
deriving DecidableEq, Repr

/-- The parse loop of `processAudioChunk`: one pair per non-blank line of
the capability output, in line order. -/
def parsedPairs (text : String) : List (String × String) :=
  ((splitLines text.data).filter nonBlank).map parsePair

/-- The `if (segments.length === 0)` fallback push of `processAudioChunk`:
when no line produced a segment, the whole trimmed text becomes one
fallback pair. -/
def chunkPairs (text : String) : List (String × String) :=
  if (parsedPairs text).isEmpty then [("Speaker 1", String.mk (trimL text.data))]
  else parsedPairs text

/-- `processAudioChunk` from `src/server/services/transcription.js`.
The whole body is wrapped in `try/catch` with `catch` returning `null`,
so a capability failure yields `none` and no exception ever escapes.
Empty or whitespace-only capability output also yields `none` (the
no-speech case).  Otherwise the parsed pairs become segment records. -/
def processAudioChunk (cap : CapResult) (chunkIndex : Nat) : Option (List Segment) :=
  match cap with
  | .err _ => none
  | .ok text =>
    if (trimL text.data).isEmpty then none
    else some (buildSegments chunkIndex 0 (chunkPairs text))

/-- `generateSummary` from `src/server/services/transcription.js`:
empty-transcript guard, external call, catch-all fallback.  The returned
flag records whether the external capability was invoked. -/
def generateSummary (fullTranscript : String) (cap : CapResult) : String × Bool :=
  if (trimL fullTranscript.data).isEmpty then
    ("No transcription available for this session.", false)
  else
    match cap with
    | .ok text => (text, true)
    | .err _ => ("Failed to generate summary. Please try again.", true)

/-! ## The HTTP summary endpoint
`src/app/api/sessions/generate-summary/route.ts` -/

/-- JS `transcript.split(' ').length`: one more than the number of space
characters (empty fragments included, as in JS). -/
def wordCount (t : String) : Nat :=
  (t.data.filter (· = ' ')).length + 1

/-- The fallback summary text built in the catch branch of the endpoint,
parameterised by the word count it interpolates and the caught error
message. -/
def routeFallbackN (n : Nat) (msg : String) : String :=
  "AI Summary Generation Test\n\nTranscript received: " ++ toString n ++
  " words\n\nNote: There was an error connecting to Gemini AI. Please check:\n1. GOOGLE_GEMINI_API_KEY is set in .env.local\n2. API key is valid\n3. Internet connection is working\n\nError: " ++ msg

/-- Shape of the `transcript` field of a parsed JSON request body, as seen
by the zod schema `z.object \x7b transcript: z.string().min(10) \x7d`. -/
inductive BodyField
  | missing
  | nonString
  | str (s : String)
deriving DecidableEq, Repr

/-- The `POST` handler of `generate-summary/route.ts`.  Input: the result
of `request.json()` (`Except`: a malformed body throws, carrying the parse
error message) and the outcome the external capability would produce.
Output: HTTP status, response summary/error body, and whether the external
capability was invoked. -/
def routePOST (body : Except String BodyField) (cap : CapResult) :
    Nat × String × Bool :=
  match body with
  | .error msg => (200, routeFallbackN 0 msg, false)
  | .ok f =>
    match f with
    | .str t =>
      if 10 ≤ t.length then
        match cap with
        | .ok s => (200, s, true)
        | .err msg => (200, routeFallbackN (wordCount t) msg, true)
      else (400, "Validation failed", false)
    | _ => (400, "Validation failed", false)

/-! ## The Socket.io server
`src/server/socket-server.js` -/

/-- The value stored in the `activeSessions` map on `start-recording`. -/
structure SessionInfo where
  sessionId : String
  startTime : Nat
  audioSource : String
deriving DecidableEq, Repr

/-- A per-chunk transcription call that has been dispatched (the handler
has reached its `await`) and not yet completed. -/
structure PendingChunk where
  sessionId : String
  chunkIndex : Nat
  cap : CapResult
deriving DecidableEq, Repr

/-- Server state: the `activeSessions` registry (association list keyed by
session id) plus the pending asynchronous transcription calls. -/
structure SState where
  activeSessions : List (String × SessionInfo)
  pending : List PendingChunk
deriving DecidableEq, Repr

/-- `Map.get`. -/
def lookupSession (m : List (String × SessionInfo)) (sid : String) :
    Option SessionInfo :=
  match m with
  | [] => none
  | (k, v) :: rest => if k = sid then some v else lookupSession rest sid

/-- `Map.set`: overwrite an existing entry or append a new one. -/
def setSession (m : List (String × SessionInfo)) (sid : String)
    (info : SessionInfo) : List (String × SessionInfo) :=
  match m with
  | [] => [(sid, info)]
  | (k, v) :: rest =>
    if k = sid then (sid, info) :: rest else (k, v) :: setSession rest sid info

/-- Client-to-server events, plus the scheduler event `completeTask i`
that resumes the `audio-chunk` handler whose awaited transcription call
(the i-th pending one) completes.  Interleaving of `completeTask` events
models the arbitrary completion order of the asynchronous calls. -/
inductive ClientEv
  | startRecording (sessionId : String) (startTime : Nat) (audioSource : String)
  | audioChunk (sessionId : String) (chunkIndex : Nat) (cap : CapResult)
  | completeTask (i : Nat)
  | pauseRecording (sessionId : String)
  | resumeRecording (sessionId : String)
  | stopRecording (sessionId : String)
deriving DecidableEq, Repr

/-- Server-to-client emissions.  A transcript segment broadcast to the
session room is one `transcriptSegment` output (the code additionally
repeats each segment directly to the sending socket; the subscriber
stream modelled here is the room broadcast). -/
inductive ServerOut
  | recordingStarted (sessionId : String)
  | errorMsg (msg : String)
  | transcriptSegment (sessionId : String) (seg : Segment)
  | recordingPaused (sessionId : String)
  | recordingResumed (sessionId : String)
  | processingComplete (sessionId : String)
deriving DecidableEq, Repr

/-- One event-handler step of `setupEventHandlers`:

* `start-recording`: unconditionally (re)sets the registry entry and
  acknowledges with `recording-started`.
* `audio-chunk` (synchronous prefix): unknown session emits the error
  `No active session` and returns; otherwise the transcription call is
  dispatched (appended to `pending`).
* `completeTask i` (handler resumption): the chunk result is computed; a
  `null` result is only logged, otherwise each segment is emitted in
  order to the session room.
* `pause-recording` / `resume-recording`: unconditional broadcasts, no
  registry access.
* `stop-recording`: missing session returns silently; otherwise
  `processing-complete` is broadcast and the entry deleted. -/
def step (st : SState) (ev : ClientEv) : SState × List ServerOut :=
  match ev with
  | .startRecording sid t src =>
    ({ st with activeSessions := setSession st.activeSessions sid ⟨sid, t, src⟩ },
     [.recordingStarted sid])
  | .audioChunk sid idx cap =>
    match lookupSession st.activeSessions sid with
    | none => (st, [.errorMsg "No active session"])
    | some _ => ({ st with pending := st.pending ++ [⟨sid, idx, cap⟩] }, [])
  | .completeTask i =>
    match st.pending[i]? with
    | none => (st, [])
    | some task =>
      let st' := { st with pending := st.pending.eraseIdx i }
      match processAudioChunk task.cap task.chunkIndex with
      | none => (st', [])
      | some segs => (st', segs.map (ServerOut.transcriptSegment task.sessionId))
  | .pauseRecording sid => (st, [.recordingPaused sid])
  | .resumeRecording sid => (st, [.recordingResumed sid])
  | .stopRecording sid =>
    match lookupSession st.activeSessions sid with
    | none => (st, [])
    | some _ =>
      ({ st with activeSessions := st.activeSessions.filter (fun p => p.1 ≠ sid) },
       [.processingComplete sid])

/-- Run a trace of events, concatenating the emissions. -/
def run (st : SState) : List ClientEv → SState × List ServerOut
  | [] => (st, [])
  | ev :: rest =>
    let p := step st ev
    let q := run p.1 rest
    (q.1, p.2 ++ q.2)

/-- The server state at process start. -/
def initState : SState := ⟨[], []⟩

/-- The chunk indices of the segments emitted to the subscribers of one
session, in emission order. -/
def segChunkIdxs (sid : String) (outs : List ServerOut) : List Nat :=
  outs.filterMap fun o =>
    match o with
    | .transcriptSegment s seg => if s = sid then some seg.chunkIndex else none
    | _ => none

/-- Whether any error event was emitted. -/
def hasError (outs : List ServerOut) : Bool :=
  outs.any fun o =>
    match o with
    | .errorMsg _ => true
    | _ => false

/-- The chunk indices of the pending transcription calls of one session,
in dispatch order. -/
def pendIdxs (sid : String) (ps : List PendingChunk) : List Nat :=
  ps.filterMap fun t => if t.sessionId = sid then some t.chunkIndex else none

/-- Non-decreasing integer list. -/
def nonDecr : List Nat → Bool
  | [] => true
  | [_] => true
  | a :: b :: r => decide (a ≤ b) && nonDecr (b :: r)

/-- Strictly increasing integer list. -/
def strictIncr : List Nat → Bool
  | [] => true
  | [_] => true
  | a :: b :: r => decide (a < b) && strictIncr (b :: r)

/-- Traces in which the asynchronous per-chunk calls complete in
submission order (every `completeTask` resumes the oldest pending call)
and the chunk indices submitted for session `sid` are strictly
increasing, starting at or above `lo`. -/
def fifoMono (sid : String) : Nat → List ClientEv → Bool
  | _, [] => true
  | lo, ev :: rest =>
    match ev with
    | .completeTask i => decide (i = 0) && fifoMono sid lo rest
    | .audioChunk s k _ =>
      if s = sid then decide (lo ≤ k) && fifoMono sid (k + 1) rest
      else fifoMono sid lo rest
    | _ => fifoMono sid lo rest

/-! ## Basic lemmas about the registry and emission streams -/

theorem lookupSession_setSession (m : List (String × SessionInfo)) (sid : String)
    (info : SessionInfo) :
    lookupSession (setSession m sid info) sid = some info := by
  induction m with
  | nil => simp [setSession, lookupSession]
  | cons kv rest ih =>
    obtain ⟨k, v⟩ := kv
    by_cases hk : k = sid
    · simp [setSession, lookupSession, hk]
    · simp [setSession, lookupSession, hk, ih]

/-! ## Claim C3: pause and resume -/

/-- Claim C3 (counterexample): a `pause` sent while the session is already
"paused" does not signal any error — the server broadcasts
`recording-paused` again and no error event of any kind appears, so the
duplicate pause silently succeeds. -/
theorem pausePaused_noInvalidTransition :
    (run initState
      [.startRecording "s" 0 "microphone",
       .pauseRecording "s", .pauseRecording "s"]).2 =
      [.recordingStarted "s", .recordingPaused "s", .recordingPaused "s"] ∧
    hasError (run initState
      [.startRecording "s" 0 "microphone",
       .pauseRecording "s", .pauseRecording "s"]).2 = false := by
  decide

/-- Claim C3 (amended): `pause-recording` and `resume-recording` are
unconditional broadcasts.  In every state — already paused, recording, or
even with no such session — a pause (resp. resume) request emits exactly
the `recording-paused` (resp. `recording-resumed`) event, never an
`InvalidTransition`-style error, and leaves the server state (registry
and pending calls) entirely unchanged. -/
theorem pauseResume_unconditional (st : SState) (sid : String) :
    step st (.pauseRecording sid) = (st, [.recordingPaused sid]) ∧
    step st (.resumeRecording sid) = (st, [.recordingResumed sid]) :=
  ⟨rfl, rfl⟩

/-! ## Claim C4: start on an existing session -/

/-- Claim C4 (counterexample): a second `start-recording` for the same
session identifier does not fail with `InvalidTransition`: it is
acknowledged with a second `recording-started` event, no error event is
emitted, and the existing registry entry is overwritten (its start time
changes from 1 to 2 and its audio source from microphone to tab). -/
theorem startExisting_overwrites :
    run initState [.startRecording "s" 1 "microphone", .startRecording "s" 2 "tab"] =
      (⟨[("s", ⟨"s", 2, "tab"⟩)], []⟩,
       [.recordingStarted "s", .recordingStarted "s"]) ∧
    hasError (run initState
      [.startRecording "s" 1 "microphone", .startRecording "s" 2 "tab"]).2 = false := by
  decide

/-- Claim C4 (amended): `start-recording` never checks for an existing
session.  In every state it unconditionally (re)writes the registry entry
for the given identifier — overwriting any live session of the same id —
and emits `recording-started`; afterwards the registry maps the id to the
freshly built record. -/
theorem start_alwaysCreates (st : SState) (sid : String) (t : Nat) (src : String) :
    step st (.startRecording sid t src) =
      ({ st with activeSessions := setSession st.activeSessions sid ⟨sid, t, src⟩ },
       [.recordingStarted sid]) ∧
    lookupSession (step st (.startRecording sid t src)).1.activeSessions sid =
      some ⟨sid, t, src⟩ :=
  ⟨rfl, lookupSession_setSession st.activeSessions sid ⟨sid, t, src⟩⟩

/-! ## Claim C5: chunks for unknown or terminated sessions -/

/-- Claim C5 (confirmed): an `audio-chunk` naming a session that is not in
the registry — never started, or already removed by `stop-recording` —
makes the handler emit the error event `No active session` to the sender
and return before any transcription is dispatched: no transcript segment
is produced and the server state is completely unchanged. -/
theorem chunkUnknownSession_rejected (st : SState) (sid : String) (idx : Nat)
    (cap : CapResult) (h : lookupSession st.activeSessions sid = none) :
    step st (.audioChunk sid idx cap) = (st, [.errorMsg "No active session"]) := by
  simp [step, h]

/-- Witness for C5, at the terminal case: after `start` then `stop`, the
session is gone from the registry and a late chunk is rejected with the
error event, with no state change and no segment. -/
theorem chunkUnknownSession_rejected_witness :
    lookupSession (run initState
      [.startRecording "s" 0 "microphone", .stopRecording "s"]).1.activeSessions "s" = none ∧
    step (run initState [.startRecording "s" 0 "microphone", .stopRecording "s"]).1
        (.audioChunk "s" 2 (.ok "[Alice]: hi")) =
      ((run initState [.startRecording "s" 0 "microphone", .stopRecording "s"]).1,
       [.errorMsg "No active session"]) :=
  ⟨by decide, chunkUnknownSession_rejected _ "s" 2 _ (by decide)⟩

/-! ## Claim C7: empty transcript at stop -/

/-- Claim C7 (confirmed): for an empty or whitespace-only transcript,
`generateSummary` short-circuits with the canned text
`No transcription available for this session.` and the external
summarization capability is not invoked — the result is the same whatever
outcome the capability would have produced. -/
theorem emptyTranscript_cannedSummary (t : String) (cap : CapResult)
    (h : trimS t = "") :
    generateSummary t cap = ("No transcription available for this session.", false) := by
  have h2 : trimL t.data = ([] : List Char) := congrArg String.data h
  simp [generateSummary, h2]

/-- Witness for C7 on a whitespace-only transcript. -/
theorem emptyTranscript_cannedSummary_witness :
    trimS "   " = "" ∧
    generateSummary "   " (.ok "would-be summary") =
      ("No transcription available for this session.", false) :=
  ⟨by decide, emptyTranscript_cannedSummary "   " (.ok "would-be summary") (by decide)⟩

/-! ## Substring lemmas for summary contents -/

theorem isPrefixOfL_append_self (p r : List Char) : isPrefixOfL p (p ++ r) = true := by
  induction p with
  | nil => rfl
  | cons c ps ih => simp [isPrefixOfL, ih]

theorem hasSubL_here (p b : List Char) : hasSubL p (p ++ b) = true := by
  cases p with
  | nil =>
    cases b with
    | nil => rfl
    | cons c r => simp [hasSubL, isPrefixOfL]
  | cons q ps =>
    have h := isPrefixOfL_append_self (q :: ps) b
    simp only [List.cons_append] at h ⊢
    simp [hasSubL, h]

theorem hasSubL_mid (a p b : List Char) : hasSubL p (a ++ (p ++ b)) = true := by
  induction a with
  | nil => simpa using hasSubL_here p b
  | cons c a' ih => simp [hasSubL, ih]

theorem dataAppend (a b : String) : (a ++ b).data = a.data ++ b.data := rfl

/-! ## Claim C8: summarization failure -/

/-- Claim C8 (counterexample): the fallback summary produced by the
transcription service's `generateSummary` when the external summarization
call fails is the fixed apology `Failed to generate summary. Please try
again.` — for the concrete three-word transcript it contains neither the
word count 3 nor any error reason, refuting the claim that every
session's failure fallback contains the transcript's word count. -/
theorem serviceFallback_lacksWordCount :
    generateSummary "alpha beta gamma" (.err "boom") =
      ("Failed to generate summary. Please try again.", true) ∧
    wordCount "alpha beta gamma" = 3 ∧
    hasSubL "3".data ("Failed to generate summary. Please try again.").data = false := by
  decide

set_option maxRecDepth 400000 in
/-- Claim C8 (amended): it is the HTTP summary endpoint, not the service
fallback, whose degraded path carries the word count: for every valid
request (transcript of at least ten characters) whose external
summarization call fails, the endpoint still responds successfully (HTTP
200, not an error status) with the deterministic fallback summary, and
that summary contains both the transcript's word count and the caught
error message. -/
theorem routeFallback_wordCountAndReason (t msg : String) (h : 10 ≤ t.length) :
    routePOST (.ok (.str t)) (.err msg) =
      (200, routeFallbackN (wordCount t) msg, true) ∧
    hasSubL (toString (wordCount t)).data (routeFallbackN (wordCount t) msg).data = true ∧
    hasSubL msg.data (routeFallbackN (wordCount t) msg).data = true := by
  refine ⟨by simp [routePOST, h], ?_, ?_⟩
  · have hshape : (routeFallbackN (wordCount t) msg).data =
        "AI Summary Generation Test\n\nTranscript received: ".data ++
        ((toString (wordCount t)).data ++
          ((" words\n\nNote: There was an error connecting to Gemini AI. Please check:\n1. GOOGLE_GEMINI_API_KEY is set in .env.local\n2. API key is valid\n3. Internet connection is working\n\nError: ").data ++ msg.data)) := by
      simp [routeFallbackN, dataAppend, List.append_assoc]
    rw [hshape]
    exact hasSubL_mid _ _ _
  · have hshape : (routeFallbackN (wordCount t) msg).data =
        ("AI Summary Generation Test\n\nTranscript received: " ++ toString (wordCount t) ++
          " words\n\nNote: There was an error connecting to Gemini AI. Please check:\n1. GOOGLE_GEMINI_API_KEY is set in .env.local\n2. API key is valid\n3. Internet connection is working\n\nError: ").data ++
          (msg.data ++ []) := by
      simp [routeFallbackN, dataAppend]
    rw [hshape]
    exact hasSubL_mid _ _ _

/-- Witness for C8 at a concrete failing request. -/
theorem routeFallback_wordCountAndReason_witness :
    10 ≤ ("team sync meeting notes" : String).length ∧
    (routePOST (.ok (.str "team sync meeting notes")) (.err "boom") =
        (200, routeFallbackN (wordCount "team sync meeting notes") "boom", true) ∧
      hasSubL (toString (wordCount "team sync meeting notes")).data
        (routeFallbackN (wordCount "team sync meeting notes") "boom").data = true ∧
      hasSubL "boom".data
        (routeFallbackN (wordCount "team sync meeting notes") "boom").data = true) :=
  ⟨by decide, routeFallback_wordCountAndReason "team sync meeting notes" "boom" (by decide)⟩

/-! ## Claim C9: endpoint transcript validation -/

/-- Claim C9 (confirmed): for every parsed request body whose `transcript`
field is missing, not a string, or a string shorter than ten characters,
the endpoint answers with status 400 and a validation error, and the
external summarization capability is never invoked; a request whose
transcript has at least ten characters passes validation and the external
call is made (whatever its outcome). -/
theorem routeValidation_gate (f : BodyField) (cap : CapResult) :
    ((f = .missing ∨ f = .nonString ∨ ∃ s, f = .str s ∧ s.length < 10) →
      routePOST (.ok f) cap = (400, "Validation failed", false)) ∧
    (∀ s, f = .str s → 10 ≤ s.length → (routePOST (.ok f) cap).2.2 = true) := by
  constructor
  · rintro (rfl | rfl | ⟨s, rfl, hs⟩)
    · rfl
    · rfl
    · simp [routePOST, Nat.not_le.mpr hs]
  · rintro s rfl h10
    cases cap <;> simp [routePOST, h10]

/-- Witness for C9: a five-character transcript is rejected with 400 and
no external call; a long transcript proceeds to the external call. -/
theorem routeValidation_gate_witness :
    routePOST (.ok (.str "short")) (.ok "x") = (400, "Validation failed", false) ∧
    (routePOST (.ok (.str "a transcript long enough")) (.ok "x")).2.2 = true :=
  ⟨(routeValidation_gate (.str "short") (.ok "x")).1
      (Or.inr (Or.inr ⟨"short", rfl, by decide⟩)),
   (routeValidation_gate (.str "a transcript long enough") (.ok "x")).2
      "a transcript long enough" rfl (by decide)⟩

/-! ## Claim C10: totality and shape of processAudioChunk results -/

/-- Boolean form of the per-segment field condition asserted by claim C10. -/
def segFieldsNonEmpty (segs : List Segment) : Bool :=
  segs.all fun s => !(decide (s.speaker = "")) && !(decide (s.text = ""))

theorem buildSegments_ne_nil (k i : Nat) (ps : List (String × String))
    (h : ps ≠ []) : buildSegments k i ps ≠ [] := by
  cases ps with
  | nil => exact absurd rfl h
  | cons p ps2 => simp [buildSegments]

theorem chunkPairs_ne_nil (text : String) : chunkPairs text ≠ [] := by
  unfold chunkPairs
  by_cases hp : (parsedPairs text).isEmpty = true
  · rw [if_pos hp]; simp
  · rw [if_neg hp]
    intro hnil
    exact hp (by rw [hnil]; rfl)

theorem procChunk_none_iff (cap : CapResult) (k : Nat) :
    processAudioChunk cap k = none ↔
      (∃ m, cap = .err m) ∨ ∃ t, cap = .ok t ∧ trimS t = "" := by
  cases cap with
  | err m => simp [processAudioChunk]
  | ok t =>
    by_cases h : (trimL t.data).isEmpty = true
    · have hnil : trimL t.data = [] := by
        cases he : trimL t.data with
        | nil => rfl
        | cons c r => rw [he] at h; simp at h
      have ht : trimS t = "" := by
        show String.mk (trimL t.data) = ""
        rw [hnil]
      constructor
      · intro _
        exact Or.inr ⟨t, rfl, ht⟩
      · intro _
        simp [processAudioChunk, h]
    · constructor
      · intro h0
        exfalso
        simp [processAudioChunk, h] at h0
      · rintro (⟨m, hm⟩ | ⟨t2, ht2, hts⟩)
        · exact CapResult.noConfusion hm
        · have h1 : t = t2 := by injection ht2
          subst h1
          have hnil : trimL t.data = ([] : List Char) := congrArg String.data hts
          rw [hnil] at h
          simp at h

theorem procChunk_some_ne_nil (cap : CapResult) (k : Nat) (segs : List Segment)
    (h : processAudioChunk cap k = some segs) : segs ≠ [] := by
  cases cap with
  | err m => simp [processAudioChunk] at h
  | ok t =>
    by_cases he : (trimL t.data).isEmpty = true
    · simp [processAudioChunk, he] at h
    · have h3 : processAudioChunk (.ok t) k = some (buildSegments k 0 (chunkPairs t)) := by
        simp [processAudioChunk, he]
      rw [h3] at h
      have h4 : buildSegments k 0 (chunkPairs t) = segs := Option.some_inj.mp h
      rw [← h4]
      exact buildSegments_ne_nil k 0 (chunkPairs t) (chunkPairs_ne_nil t)

/-- Claim C10 (counterexample): on the capability output `[]: hi` the
parse accepts the empty speaker label — `processAudioChunk` returns one
segment whose speaker is the empty string, refuting the claim that every
returned segment has a non-empty speaker label and text. -/
theorem segmentFields_canBeEmpty :
    processAudioChunk (.ok "[]: hi") 0 = some [⟨"", "hi", "00:00:00", 0, 0⟩] ∧
    segFieldsNonEmpty [⟨"", "hi", "00:00:00", 0, 0⟩] = false := by
  decide

/-- Claim C10 (amended): `processAudioChunk` is a total function — every
failure of the external call is caught internally, so no exception ever
propagates — and it returns either a non-empty list of segments or null,
null exactly when the capability call failed or its output was empty or
whitespace-only.  (The per-segment fields, however, are not guaranteed
non-empty: see the counterexample.) -/
theorem processAudioChunk_total (cap : CapResult) (k : Nat) :
    (processAudioChunk cap k = none ↔
      (∃ m, cap = .err m) ∨ ∃ t, cap = .ok t ∧ trimS t = "") ∧
    ∀ segs, processAudioChunk cap k = some segs → segs ≠ [] :=
  ⟨procChunk_none_iff cap k, fun segs h => procChunk_some_ne_nil cap k segs h⟩

/-- Witness for C10: the implication instantiated on a failing call and on
a concrete successful parse. -/
theorem processAudioChunk_total_witness :
    processAudioChunk (.err "timeout") 5 = none ∧
    ([⟨"Alice", "hi", "00:00:00", 0, 0⟩] : List Segment) ≠ [] :=
  ⟨(processAudioChunk_total (.err "timeout") 5).1.mpr (Or.inl ⟨"timeout", rfl⟩),
   (processAudioChunk_total (.ok "[Alice]: hi") 0).2 [⟨"Alice", "hi", "00:00:00", 0, 0⟩]
     (by decide)⟩

/-! ## Claim C6: the line convention of the parse loop -/

/-- The `[<speaker>]: <text>` line convention, stated structurally (not by
the parsing algorithm): the line opens with a bracket, `sp` is the label
up to the first `]:` separator (no earlier separator occurs inside it),
and the remainder `tx` after the separator is non-empty. -/
def ConventionLine (line sp tx : List Char) : Prop :=
  line = '[' :: (sp ++ ']' :: ':' :: tx) ∧ tx ≠ [] ∧ hasSubL [']', ':'] sp = false

theorem speakerSplit_complete (sp : List Char) : ∀ tx : List Char, tx ≠ [] →
    hasSubL [']', ':'] sp = false →
    speakerSplit (sp ++ ']' :: ':' :: tx) = some (sp, tx) := by
  induction sp with
  | nil =>
    intro tx htx _
    cases tx with
    | nil => exact absurd rfl htx
    | cons c r => simp [speakerSplit]
  | cons a sp2 ih =>
    intro tx htx hsub
    have hsub2 : hasSubL [']', ':'] sp2 = false := by
      have hx : (isPrefixOfL [']', ':'] (a :: sp2) || hasSubL [']', ':'] sp2) = false := hsub
      exact (Bool.or_eq_false_iff.mp hx).2
    cases hsplit : sp2 ++ ']' :: ':' :: tx with
    | nil => exact absurd hsplit (by cases sp2 <;> simp)
    | cons d rest =>
      have hnota : ¬(a = ']' ∧ d = ':') := by
        rintro ⟨rfl, rfl⟩
        cases sp2 with
        | nil =>
          rw [List.nil_append] at hsplit
          injection hsplit with h1 h2
          exact absurd h1 (by decide)
        | cons b sp3 =>
          have hb : b = ':' := by
            have h0 := congrArg (fun l => l.headD ' ') hsplit
            simpa using h0
          subst hb
          simp [hasSubL, isPrefixOfL] at hsub
      have hmatch : speakerSplit (a :: d :: rest) =
          (if a = ']' ∧ d = ':' then
            if rest.isEmpty then none else some ([], rest)
          else
            match speakerSplit (d :: rest) with
            | some (sp, tx) => some (a :: sp, tx)
            | none => none) := rfl
      show speakerSplit (a :: (sp2 ++ ']' :: ':' :: tx)) = _
      rw [hsplit, hmatch, if_neg hnota, ← hsplit, ih tx htx hsub2]

theorem speakerSplit_sound (r : List Char) : ∀ sp tx : List Char,
    speakerSplit r = some (sp, tx) →
    r = sp ++ ']' :: ':' :: tx ∧ tx ≠ [] ∧ hasSubL [']', ':'] sp = false := by
  induction r with
  | nil => intro sp tx h; simp [speakerSplit] at h
  | cons c w ih =>
    intro sp tx h
    cases w with
    | nil => simp [speakerSplit] at h
    | cons d rest =>
      have hmatch : speakerSplit (c :: d :: rest) =
          (if c = ']' ∧ d = ':' then
            if rest.isEmpty then none else some ([], rest)
          else
            match speakerSplit (d :: rest) with
            | some (sp, tx) => some (c :: sp, tx)
            | none => none) := rfl
      rw [hmatch] at h
      by_cases hcd : c = ']' ∧ d = ':'
      · rw [if_pos hcd] at h
        by_cases hre : rest.isEmpty = true
        · rw [if_pos hre] at h; exact Option.noConfusion h
        · rw [if_neg hre] at h
          have h2 := Option.some_inj.mp h
          have hsp : ([] : List Char) = sp := congrArg Prod.fst h2
          have htx : rest = tx := congrArg Prod.snd h2
          subst hsp; subst htx
          obtain ⟨rfl, rfl⟩ := hcd
          refine ⟨rfl, ?_, rfl⟩
          intro hnil
          rw [hnil] at hre
          exact hre rfl
      · rw [if_neg hcd] at h
        cases hss : speakerSplit (d :: rest) with
        | none => rw [hss] at h; exact Option.noConfusion h
        | some pr =>
          obtain ⟨sp2, tx2⟩ := pr
          rw [hss] at h
          have h2 := Option.some_inj.mp h
          have hsp : c :: sp2 = sp := congrArg Prod.fst h2
          have htx : tx2 = tx := congrArg Prod.snd h2
          subst hsp; subst htx
          obtain ⟨hr, htx2, hsub2⟩ := ih sp2 tx2 hss
          refine ⟨by rw [List.cons_append, ← hr], htx2, ?_⟩
          have hpre : isPrefixOfL [']', ':'] (c :: sp2) = false := by
            cases sp2 with
            | nil => simp [isPrefixOfL]
            | cons e sp3 =>
              have he : d = e := by
                have h0 := congrArg (fun l => l.headD ' ') hr
                simpa using h0
              subst he
              by_cases hc : c = ']'
              · by_cases hd : d = ':'
                · exact absurd ⟨hc, hd⟩ hcd
                · have hd2 : (':' : Char) ≠ d := fun hx => hd hx.symm
                  simp [isPrefixOfL, hd2]
              · have hc2 : (']' : Char) ≠ c := fun hx => hc hx.symm
                simp [isPrefixOfL, hc2]
          show (isPrefixOfL [']', ':'] (c :: sp2) || hasSubL [']', ':'] sp2) = false
          simp [hpre, hsub2]

theorem isEmptyFalse {α : Type} (l : List α) (h : l ≠ []) : l.isEmpty = false := by
  cases l with
  | nil => exact absurd rfl h
  | cons a r => rfl

theorem trimL_ne_nil_of_trimS (text : String) (h : trimS text ≠ "") :
    trimL text.data ≠ [] := by
  intro hn
  apply h
  show String.mk (trimL text.data) = ""
  rw [hn]

theorem dropWs_eq_nil (l : List Char) (h : ∀ c ∈ l, isWs c = true) :
    dropWs l = [] := by
  induction l with
  | nil => rfl
  | cons a w ih =>
    have ha : isWs a = true := h a (List.mem_cons_self a w)
    rw [show dropWs (a :: w) = dropWs w from by simp [dropWs, ha]]
    exact ih fun c hc => h c (List.mem_cons_of_mem a hc)

theorem allWs_of_dropWs_nil (l : List Char) (h : dropWs l = []) :
    ∀ c ∈ l, isWs c = true := by
  induction l with
  | nil => simp
  | cons a w ih =>
    by_cases ha : isWs a = true
    · rw [show dropWs (a :: w) = dropWs w from by simp [dropWs, ha]] at h
      intro c hc
      rcases List.mem_cons.mp hc with rfl | hcw
      · exact ha
      · exact ih h c hcw
    · rw [show dropWs (a :: w) = a :: w from by simp [dropWs, ha]] at h
      exact absurd h (by simp)

theorem allWs_of_allWs_dropWs (l : List Char)
    (h : ∀ c ∈ dropWs l, isWs c = true) : ∀ c ∈ l, isWs c = true := by
  induction l with
  | nil => simp
  | cons a w ih =>
    by_cases ha : isWs a = true
    · rw [show dropWs (a :: w) = dropWs w from by simp [dropWs, ha]] at h
      intro c hc
      rcases List.mem_cons.mp hc with rfl | hcw
      · exact ha
      · exact ih h c hcw
    · rw [show dropWs (a :: w) = a :: w from by simp [dropWs, ha]] at h
      exact h

theorem allWs_of_trimL_nil (l : List Char) (h : trimL l = []) :
    ∀ c ∈ l, isWs c = true := by
  have h1 : dropWs ((dropWs l).reverse) = [] := by
    have h0 := congrArg List.reverse h
    simpa [trimL] using h0
  have h2 : ∀ c ∈ (dropWs l).reverse, isWs c = true := allWs_of_dropWs_nil _ h1
  have h3 : ∀ c ∈ dropWs l, isWs c = true := fun c hc =>
    h2 c (List.mem_reverse.mpr hc)
  exact allWs_of_allWs_dropWs l h3

theorem trimL_eq_nil_allWs (l : List Char) (h : ∀ c ∈ l, isWs c = true) :
    trimL l = [] := by
  have h1 : dropWs l = [] := dropWs_eq_nil l h
  show (dropWs ((dropWs l).reverse)).reverse = []
  rw [h1]
  rfl

theorem splitLines_ne_nil (l : List Char) : splitLines l ≠ [] := by
  induction l with
  | nil => simp [splitLines]
  | cons c w ih =>
    cases hs : splitLines w with
    | nil => exact absurd hs ih
    | cons L Ls =>
      rw [show splitLines (c :: w) =
        (if c = '\n' then [] :: L :: Ls else (c :: L) :: Ls) from by
          simp [splitLines, hs]]
      by_cases hc : c = '\n'
      · simp [hc]
      · simp [hc]

theorem mem_line_of_mem (c : Char) (l : List Char) (hc : c ∈ l)
    (hnl : c ≠ '\n') : ∃ line ∈ splitLines l, c ∈ line := by
  induction l with
  | nil => simp at hc
  | cons a w ih =>
    cases hs : splitLines w with
    | nil => exact absurd hs (splitLines_ne_nil w)
    | cons L Ls =>
      rw [show splitLines (a :: w) =
        (if a = '\n' then [] :: L :: Ls else (a :: L) :: Ls) from by
          simp [splitLines, hs]]
      rcases List.mem_cons.mp hc with rfl | hcw
      · rw [if_neg hnl]
        exact ⟨c :: L, List.mem_cons_self _ _, List.mem_cons_self _ _⟩
      · obtain ⟨line, hline, hcl⟩ := ih hcw
        rw [hs] at hline
        by_cases ha : a = '\n'
        · rw [if_pos ha]
          exact ⟨line, List.mem_cons_of_mem _ hline, hcl⟩
        · rw [if_neg ha]
          rcases List.mem_cons.mp hline with rfl | hlls
          · exact ⟨a :: line, List.mem_cons_self _ _, List.mem_cons_of_mem a hcl⟩
          · exact ⟨line, List.mem_cons_of_mem _ hlls, hcl⟩

theorem parsedPairs_ne_nil (text : String) (h : trimS text ≠ "") :
    parsedPairs text ≠ [] := by
  have h0 : trimL text.data ≠ [] := trimL_ne_nil_of_trimS text h
  have h1 : ∃ c ∈ text.data, isWs c = false := by
    by_contra hall
    push_neg at hall
    apply h0
    apply trimL_eq_nil_allWs
    intro c hc
    cases hb : isWs c with
    | false => exact absurd hb (hall c hc)
    | true => rfl
  obtain ⟨c, hcl, hcw⟩ := h1
  have hnl : c ≠ '\n' := by
    rintro rfl
    simp [isWs] at hcw
  obtain ⟨line, hline, hcline⟩ := mem_line_of_mem c text.data hcl hnl
  have hnb : nonBlank line = true := by
    show (!(trimL line).isEmpty) = true
    cases ht : trimL line with
    | nil =>
      have := allWs_of_trimL_nil line ht c hcline
      rw [this] at hcw
      exact Bool.noConfusion hcw
    | cons x xs => rfl
  have hmem : line ∈ (splitLines text.data).filter nonBlank :=
    List.mem_filter.mpr ⟨hline, hnb⟩
  intro hnil
  have : (splitLines text.data).filter nonBlank = [] := by
    have h2 : (((splitLines text.data).filter nonBlank).map parsePair) = [] := hnil
    exact List.map_eq_nil_iff.mp h2
  rw [this] at hmem
  exact absurd hmem (by simp)

set_option maxRecDepth 40000 in
/-- Claim C6 (confirmed): for capability output with any non-whitespace
content, `processAudioChunk` produces exactly one segment per non-blank
line, in line order (`parsedPairs`); a line matching the
`[<speaker>]: <text>` convention (`ConventionLine`) contributes its own
(trimmed) speaker label and text, and every non-blank line not matching
the convention contributes the fallback pair labelled `Speaker 1`
carrying the whole (trimmed) line — so no non-whitespace transcribed text
is dropped. -/
theorem parseSegments_lineConvention (text : String) (k : Nat)
    (h : trimS text ≠ "") :
    processAudioChunk (.ok text) k =
      some (buildSegments k 0 (parsedPairs text)) ∧
    (∀ line sp tx, ConventionLine line sp tx →
      parsePair line = (String.mk (trimL sp), String.mk (trimL tx))) ∧
    (∀ line, (∀ sp tx, ¬ ConventionLine line sp tx) →
      parsePair line = ("Speaker 1", String.mk (trimL line))) := by
  refine ⟨?_, ?_, ?_⟩
  · have h1 : (trimL text.data).isEmpty = false :=
      isEmptyFalse _ (trimL_ne_nil_of_trimS text h)
    have hch : chunkPairs text = parsedPairs text := by
      unfold chunkPairs
      rw [isEmptyFalse _ (parsedPairs_ne_nil text h)]
      simp
    simp [processAudioChunk, h1, hch]
  · rintro line sp tx ⟨hline, htx, hsub⟩
    subst hline
    show (match speakerSplit (sp ++ ']' :: ':' :: tx) with
          | some (sp, tx) => (String.mk (trimL sp), String.mk (trimL tx))
          | none => ("Speaker 1", String.mk (trimL ('[' :: (sp ++ ']' :: ':' :: tx))))) = _
    rw [speakerSplit_complete sp tx htx hsub]
  · intro line hno
    cases line with
    | nil => rfl
    | cons c rest =>
      by_cases hc : c = '['
      · subst hc
        cases hss : speakerSplit rest with
        | none =>
          show (match speakerSplit rest with
                | some (sp, tx) => (String.mk (trimL sp), String.mk (trimL tx))
                | none => ("Speaker 1", String.mk (trimL ('[' :: rest)))) = _
          rw [hss]
        | some pr =>
          obtain ⟨sp, tx⟩ := pr
          exfalso
          obtain ⟨hr, htx, hsub⟩ := speakerSplit_sound rest sp tx hss
          exact hno sp tx ⟨by rw [hr], htx, hsub⟩
      · unfold parsePair
        split
        · next r heq =>
          exfalso
          have h0 := congrArg (fun l => l.headD ' ') heq
          simp at h0
          exact hc h0
        · rfl

/-- Witness for C6 on a two-line capability output with one matching and
one non-matching line. -/
theorem parseSegments_lineConvention_witness :
    trimS "[Alice]: hi\nplain words" ≠ "" ∧
    (processAudioChunk (.ok "[Alice]: hi\nplain words") 0 =
        some (buildSegments 0 0 (parsedPairs "[Alice]: hi\nplain words")) ∧
      (∀ line sp tx, ConventionLine line sp tx →
        parsePair line = (String.mk (trimL sp), String.mk (trimL tx))) ∧
      (∀ line, (∀ sp tx, ¬ ConventionLine line sp tx) →
        parsePair line = ("Speaker 1", String.mk (trimL line)))) :=
  ⟨by decide, parseSegments_lineConvention "[Alice]: hi\nplain words" 0 (by decide)⟩

/-! ## Claim C2: chunk transcription failure -/

/-- Claim C2 (counterexample): when the external transcription call for
chunk 0 fails, the sender receives no error event at all (the failure is
caught inside `processAudioChunk`, which returns null, and the handler
merely logs the absence of a result), and nothing is recorded on the
session: the final state equals the plain registry entry from `start`.
The subsequent chunk 1 is still processed and emitted. -/
theorem failedChunk_noErrorEvent :
    (run initState
      [.startRecording "s" 7 "microphone",
       .audioChunk "s" 0 (.err "api down"), .completeTask 0,
       .audioChunk "s" 1 (.ok "[Bob]: one"), .completeTask 0]).2 =
      [.recordingStarted "s",
       .transcriptSegment "s" ⟨"Bob", "one", "00:00:30", 30000, 1⟩] ∧
    hasError (run initState
      [.startRecording "s" 7 "microphone",
       .audioChunk "s" 0 (.err "api down"), .completeTask 0,
       .audioChunk "s" 1 (.ok "[Bob]: one"), .completeTask 0]).2 = false ∧
    (run initState
      [.startRecording "s" 7 "microphone",
       .audioChunk "s" 0 (.err "api down"), .completeTask 0,
       .audioChunk "s" 1 (.ok "[Bob]: one"), .completeTask 0]).1 =
      ⟨[("s", ⟨"s", 7, "microphone"⟩)], []⟩ := by
  decide

/-- Claim C2 (amended): a chunk whose external transcription call fails is
lost silently: no error event reaches the sender, no gap is recorded (the
session record has no field for it — the state is exactly as before the
chunk), the session is not failed or removed, and a subsequent chunk of
the same session is still processed and its segments emitted in order. -/
theorem failedChunk_silentLoss (st : SState) (sid : String) (info : SessionInfo)
    (i j : Nat) (e : String) (cap2 : CapResult)
    (hs : lookupSession st.activeSessions sid = some info)
    (hp : st.pending = []) :
    (run st [.audioChunk sid i (.err e), .completeTask 0,
             .audioChunk sid j cap2, .completeTask 0]).1 = st ∧
    (run st [.audioChunk sid i (.err e), .completeTask 0,
             .audioChunk sid j cap2, .completeTask 0]).2 =
      (match processAudioChunk cap2 j with
        | none => []
        | some segs => segs.map (ServerOut.transcriptSegment sid)) ∧
    ∀ m, ServerOut.errorMsg m ∉
      (run st [.audioChunk sid i (.err e), .completeTask 0,
               .audioChunk sid j cap2, .completeTask 0]).2 := by
  obtain ⟨as, ps⟩ := st
  simp only at hp
  subst hp
  have h0 : processAudioChunk (CapResult.err e) i = none := rfl
  rcases hj : processAudioChunk cap2 j with _ | segs <;>
    simp [run, step, hs, hj, h0]

/-- Witness for C2 on a concrete session and chunk pair. -/
theorem failedChunk_silentLoss_witness :
    lookupSession [("s", (⟨"s", 7, "microphone"⟩ : SessionInfo))] "s" =
      some ⟨"s", 7, "microphone"⟩ ∧
    ((run (⟨[("s", ⟨"s", 7, "microphone"⟩)], []⟩ : SState)
        [.audioChunk "s" 0 (.err "boom"), .completeTask 0,
         .audioChunk "s" 1 (.ok "[Ann]: ok"), .completeTask 0]).1 =
        ⟨[("s", ⟨"s", 7, "microphone"⟩)], []⟩ ∧
      (run (⟨[("s", ⟨"s", 7, "microphone"⟩)], []⟩ : SState)
        [.audioChunk "s" 0 (.err "boom"), .completeTask 0,
         .audioChunk "s" 1 (.ok "[Ann]: ok"), .completeTask 0]).2 =
        (match processAudioChunk (.ok "[Ann]: ok") 1 with
          | none => []
          | some segs => segs.map (ServerOut.transcriptSegment "s")) ∧
      ∀ m, ServerOut.errorMsg m ∉
        (run (⟨[("s", ⟨"s", 7, "microphone"⟩)], []⟩ : SState)
          [.audioChunk "s" 0 (.err "boom"), .completeTask 0,
           .audioChunk "s" 1 (.ok "[Ann]: ok"), .completeTask 0]).2) :=
  ⟨by decide,
   failedChunk_silentLoss ⟨[("s", ⟨"s", 7, "microphone"⟩)], []⟩ "s"
     ⟨"s", 7, "microphone"⟩ 0 1 "boom" (.ok "[Ann]: ok") (by decide) rfl⟩

/-! ## Claim C1: emission order, supporting lemmas -/

theorem segChunkIdxs_append (sid : String) (a b : List ServerOut) :
    segChunkIdxs sid (a ++ b) = segChunkIdxs sid a ++ segChunkIdxs sid b := by
  simp [segChunkIdxs]

theorem segChunkIdxs_map_self (sid : String) (segs : List Segment) :
    segChunkIdxs sid (segs.map (ServerOut.transcriptSegment sid)) =
      segs.map Segment.chunkIndex := by
  induction segs with
  | nil => rfl
  | cons s r ih =>
    simp only [List.map_cons]
    rw [show segChunkIdxs sid
        (ServerOut.transcriptSegment sid s :: r.map (ServerOut.transcriptSegment sid)) =
        s.chunkIndex :: segChunkIdxs sid (r.map (ServerOut.transcriptSegment sid)) from by
      simp [segChunkIdxs, List.filterMap_cons]]
    rw [ih]

theorem segChunkIdxs_map_other (sid sid2 : String) (h : sid2 ≠ sid)
    (segs : List Segment) :
    segChunkIdxs sid (segs.map (ServerOut.transcriptSegment sid2)) = [] := by
  induction segs with
  | nil => rfl
  | cons s r ih =>
    simp only [List.map_cons]
    rw [show segChunkIdxs sid
        (ServerOut.transcriptSegment sid2 s :: r.map (ServerOut.transcriptSegment sid2)) =
        segChunkIdxs sid (r.map (ServerOut.transcriptSegment sid2)) from by
      simp [segChunkIdxs, List.filterMap_cons, h]]
    exact ih

theorem buildSegments_map_chunkIdx (k : Nat) : ∀ (i : Nat) (ps : List (String × String)),
    (buildSegments k i ps).map Segment.chunkIndex =
      List.replicate (buildSegments k i ps).length k := by
  intro i ps
  induction ps generalizing i with
  | nil => rfl
  | cons p ps2 ih =>
    simp only [buildSegments, List.map_cons, List.length_cons, List.replicate_succ]
    rw [ih (i + 1)]

theorem procChunk_map_chunkIdx (cap : CapResult) (k : Nat) (segs : List Segment)
    (h : processAudioChunk cap k = some segs) :
    segs.map Segment.chunkIndex = List.replicate segs.length k := by
  cases cap with
  | err m => simp [processAudioChunk] at h
  | ok t =>
    by_cases he : (trimL t.data).isEmpty = true
    · simp [processAudioChunk, he] at h
    · have h3 : processAudioChunk (.ok t) k = some (buildSegments k 0 (chunkPairs t)) := by
        simp [processAudioChunk, he]
      rw [h3] at h
      have h4 : buildSegments k 0 (chunkPairs t) = segs := Option.some_inj.mp h
      rw [← h4]
      exact buildSegments_map_chunkIdx k 0 (chunkPairs t)

theorem nonDecr_cons_all (k : Nat) (L : List Nat) (h1 : nonDecr L = true)
    (h2 : ∀ e ∈ L, k ≤ e) : nonDecr (k :: L) = true := by
  cases L with
  | nil => rfl
  | cons x r =>
    show (decide (k ≤ x) && nonDecr (x :: r)) = true
    rw [Bool.and_eq_true]
    exact ⟨decide_eq_true (h2 x (List.mem_cons_self x r)), h1⟩

theorem nonDecr_replicate_append (k n : Nat) (L : List Nat) (h1 : nonDecr L = true)
    (h2 : ∀ e ∈ L, k ≤ e) : nonDecr (List.replicate n k ++ L) = true := by
  induction n with
  | zero => simpa using h1
  | succ n ih =>
    rw [List.replicate_succ, List.cons_append]
    apply nonDecr_cons_all
    · exact ih
    · intro e he
      rcases List.mem_append.mp he with hrep | hL
      · rw [List.eq_of_mem_replicate hrep]
      · exact h2 e hL

theorem strictIncr_tail (a : Nat) (L : List Nat)
    (h : strictIncr (a :: L) = true) : strictIncr L = true := by
  cases L with
  | nil => rfl
  | cons b r =>
    have h2 : (decide (a < b) && strictIncr (b :: r)) = true := h
    exact (Bool.and_eq_true_iff.mp h2).2

theorem strictIncr_head_lt (a : Nat) (L : List Nat)
    (h : strictIncr (a :: L) = true) : ∀ e ∈ L, a < e := by
  induction L generalizing a with
  | nil => simp
  | cons b r ih =>
    have h2 : (decide (a < b) && strictIncr (b :: r)) = true := h
    obtain ⟨hab0, hbr⟩ := Bool.and_eq_true_iff.mp h2
    have hab : a < b := of_decide_eq_true hab0
    intro e he
    rcases List.mem_cons.mp he with rfl | her
    · exact hab
    · exact lt_trans hab (ih b hbr e her)

theorem strictIncr_cons_head (a : Nat) (L : List Nat) (h1 : strictIncr L = true)
    (h2 : ∀ x, L.head? = some x → a < x) : strictIncr (a :: L) = true := by
  cases L with
  | nil => rfl
  | cons b r =>
    show (decide (a < b) && strictIncr (b :: r)) = true
    rw [Bool.and_eq_true]
    exact ⟨decide_eq_true (h2 b rfl), h1⟩

theorem strictIncr_append_one (L : List Nat) (k : Nat) (h1 : strictIncr L = true)
    (h2 : ∀ b ∈ L, b < k) : strictIncr (L ++ [k]) = true := by
  induction L with
  | nil => rfl
  | cons a L2 ih =>
    rw [List.cons_append]
    apply strictIncr_cons_head
    · exact ih (strictIncr_tail a L2 h1) fun b hbm => h2 b (List.mem_cons_of_mem a hbm)
    · intro x hx
      cases L2 with
      | nil =>
        have hx2 : k = x := by simpa using hx
        rw [← hx2]
        exact h2 a (List.mem_cons_self a [])
      | cons b r =>
        have hx2 : b = x := by simpa using hx
        have h3 : (decide (a < b) && strictIncr (b :: r)) = true := h1
        rw [← hx2]
        exact of_decide_eq_true (Bool.and_eq_true_iff.mp h3).1

/-- Key invariant of the emission stream: along any trace whose
completions are processed in submission order and whose chunk indices for
session `sid` arrive strictly increasing (at or above `lo`), given that
the currently pending chunk indices of `sid` are strictly increasing and
all below `lo`, the segments emitted for `sid` have non-decreasing chunk
indices, and each emitted index stems from a currently pending chunk or a
later-arriving one. -/
theorem orderAux (sid : String) : ∀ (trace : List ClientEv) (st : SState) (lo : Nat),
    fifoMono sid lo trace = true →
    strictIncr (pendIdxs sid st.pending) = true →
    (∀ b ∈ pendIdxs sid st.pending, b < lo) →
    nonDecr (segChunkIdxs sid (run st trace).2) = true ∧
    ∀ e ∈ segChunkIdxs sid (run st trace).2,
      e ∈ pendIdxs sid st.pending ∨ lo ≤ e := by
  intro trace
  induction trace with
  | nil =>
    intro st lo _ _ _
    exact ⟨rfl, by simp [run, segChunkIdxs]⟩
  | cons ev rest ih =>
    intro st lo hf hs hb
    cases ev with
    | startRecording sid2 t src =>
      have hf2 : fifoMono sid lo rest = true := hf
      obtain ⟨h1, h2⟩ := ih
        { st with activeSessions := setSession st.activeSessions sid2 ⟨sid2, t, src⟩ }
        lo hf2 hs hb
      simp only [run, step]
      rw [segChunkIdxs_append]
      refine ⟨by simpa [segChunkIdxs] using h1, ?_⟩
      intro e he
      exact h2 e (by simpa [segChunkIdxs] using he)
    | pauseRecording sid2 =>
      have hf2 : fifoMono sid lo rest = true := hf
      obtain ⟨h1, h2⟩ := ih st lo hf2 hs hb
      simp only [run, step]
      rw [segChunkIdxs_append]
      refine ⟨by simpa [segChunkIdxs] using h1, ?_⟩
      intro e he
      exact h2 e (by simpa [segChunkIdxs] using he)
    | resumeRecording sid2 =>
      have hf2 : fifoMono sid lo rest = true := hf
      obtain ⟨h1, h2⟩ := ih st lo hf2 hs hb
      simp only [run, step]
      rw [segChunkIdxs_append]
      refine ⟨by simpa [segChunkIdxs] using h1, ?_⟩
      intro e he
      exact h2 e (by simpa [segChunkIdxs] using he)
    | stopRecording sid2 =>
      have hf2 : fifoMono sid lo rest = true := hf
      cases hlk : lookupSession st.activeSessions sid2 with
      | none =>
        obtain ⟨h1, h2⟩ := ih st lo hf2 hs hb
        simp only [run, step, hlk]
        rw [segChunkIdxs_append]
        refine ⟨by simpa [segChunkIdxs] using h1, ?_⟩
        intro e he
        exact h2 e (by simpa [segChunkIdxs] using he)
      | some info =>
        obtain ⟨h1, h2⟩ := ih
          { st with activeSessions := st.activeSessions.filter (fun p => p.1 ≠ sid2) }
          lo hf2 hs hb
        simp only [run, step, hlk]
        rw [segChunkIdxs_append]
        refine ⟨by simpa [segChunkIdxs] using h1, ?_⟩
        intro e he
        exact h2 e (by simpa [segChunkIdxs] using he)
    | audioChunk s k cap =>
      have hf0 : (if s = sid then decide (lo ≤ k) && fifoMono sid (k + 1) rest
                  else fifoMono sid lo rest) = true := hf
      by_cases hsid : s = sid
      · subst hsid
        rw [if_pos rfl, Bool.and_eq_true] at hf0
        obtain ⟨hlo0, hf2⟩ := hf0
        have hlo : lo ≤ k := of_decide_eq_true hlo0
        cases hlk : lookupSession st.activeSessions s with
        | none =>
          obtain ⟨h1, h2⟩ := ih st (k + 1) hf2 hs
            (fun b hbm => lt_of_lt_of_le (hb b hbm) (Nat.le_succ_of_le hlo))
          simp only [run, step, hlk]
          rw [segChunkIdxs_append]
          refine ⟨by simpa [segChunkIdxs] using h1, ?_⟩
          intro e he
          rcases h2 e (by simpa [segChunkIdxs] using he) with hmem | hge
          · exact Or.inl hmem
          · exact Or.inr (le_trans hlo (le_trans (Nat.le_succ k) hge))
        | some info =>
          have hpend : pendIdxs s (st.pending ++ [⟨s, k, cap⟩]) =
              pendIdxs s st.pending ++ [k] := by
            simp [pendIdxs, List.filterMap_append]
          have hsi : strictIncr (pendIdxs s (st.pending ++ [⟨s, k, cap⟩])) = true := by
            rw [hpend]
            exact strictIncr_append_one _ k hs fun b hbm =>
              lt_of_lt_of_le (hb b hbm) hlo
          have hbd : ∀ b ∈ pendIdxs s (st.pending ++ [⟨s, k, cap⟩]), b < k + 1 := by
            rw [hpend]
            intro b hbm
            rcases List.mem_append.mp hbm with h' | h'
            · exact lt_of_lt_of_le (hb b h') (Nat.le_succ_of_le hlo)
            · rw [List.mem_singleton.mp h']
              exact Nat.lt_succ_self k
          obtain ⟨h1, h2⟩ := ih { st with pending := st.pending ++ [⟨s, k, cap⟩] }
            (k + 1) hf2 hsi hbd
          simp only [run, step, hlk]
          rw [segChunkIdxs_append]
          refine ⟨by simpa [segChunkIdxs] using h1, ?_⟩
          intro e he
          rcases h2 e (by simpa [segChunkIdxs] using he) with hmem | hge
          · have hmem2 : e ∈ pendIdxs s (st.pending ++ [(⟨s, k, cap⟩ : PendingChunk)]) := hmem
            rw [hpend] at hmem2
            rcases List.mem_append.mp hmem2 with h' | h'
            · exact Or.inl h'
            · rw [List.mem_singleton.mp h']
              exact Or.inr hlo
          · exact Or.inr (le_trans hlo (le_trans (Nat.le_succ k) hge))
      · rw [if_neg hsid] at hf0
        cases hlk : lookupSession st.activeSessions s with
        | none =>
          obtain ⟨h1, h2⟩ := ih st lo hf0 hs hb
          simp only [run, step, hlk]
          rw [segChunkIdxs_append]
          refine ⟨by simpa [segChunkIdxs] using h1, ?_⟩
          intro e he
          exact h2 e (by simpa [segChunkIdxs] using he)
        | some info =>
          have hpend : pendIdxs sid (st.pending ++ [⟨s, k, cap⟩]) =
              pendIdxs sid st.pending := by
            simp [pendIdxs, List.filterMap_append, hsid]
          have hsi : strictIncr (pendIdxs sid
              (({ st with pending := st.pending ++ [⟨s, k, cap⟩] } : SState).pending)) = true := by
            have hx : pendIdxs sid
                (({ st with pending := st.pending ++ [⟨s, k, cap⟩] } : SState).pending) =
                pendIdxs sid st.pending := hpend
            rw [hx]
            exact hs
          have hbd : ∀ b ∈ pendIdxs sid
              (({ st with pending := st.pending ++ [⟨s, k, cap⟩] } : SState).pending), b < lo := by
            have hx : pendIdxs sid
                (({ st with pending := st.pending ++ [⟨s, k, cap⟩] } : SState).pending) =
                pendIdxs sid st.pending := hpend
            rw [hx]
            exact hb
          obtain ⟨h1, h2⟩ := ih { st with pending := st.pending ++ [⟨s, k, cap⟩] }
            lo hf0 hsi hbd
          simp only [run, step, hlk]
          rw [segChunkIdxs_append]
          refine ⟨by simpa [segChunkIdxs] using h1, ?_⟩
          intro e he
          rcases h2 e (by simpa [segChunkIdxs] using he) with hmem | hge
          · have hmem2 : e ∈ pendIdxs sid (st.pending ++ [(⟨s, k, cap⟩ : PendingChunk)]) := hmem
            rw [hpend] at hmem2
            exact Or.inl hmem2
          · exact Or.inr hge
    | completeTask i =>
      have hf0 : (decide (i = 0) && fifoMono sid lo rest) = true := hf
      rw [Bool.and_eq_true] at hf0
      obtain ⟨hi0, hf2⟩ := hf0
      have hi : i = 0 := of_decide_eq_true hi0
      subst hi
      obtain ⟨as2, pend⟩ := st
      cases pend with
      | nil =>
        obtain ⟨h1, h2⟩ := ih ⟨as2, []⟩ lo hf2 hs hb
        simp only [run, step, List.getElem?_nil]
        rw [segChunkIdxs_append]
        refine ⟨by simpa [segChunkIdxs] using h1, ?_⟩
        intro e he
        exact h2 e (by simpa [segChunkIdxs] using he)
      | cons task ps =>
        obtain ⟨tsid, tk, tcap⟩ := task
        have hs1 : strictIncr (pendIdxs sid
            ((⟨tsid, tk, tcap⟩ : PendingChunk) :: ps)) = true := hs
        have hb1 : ∀ b ∈ pendIdxs sid ((⟨tsid, tk, tcap⟩ : PendingChunk) :: ps),
            b < lo := hb
        by_cases ht : tsid = sid
        · subst ht
          have hcons : pendIdxs tsid ((⟨tsid, tk, tcap⟩ : PendingChunk) :: ps) =
              tk :: pendIdxs tsid ps := by
            simp [pendIdxs, List.filterMap_cons]
          rw [hcons] at hs1 hb1
          have hs2 : strictIncr (pendIdxs tsid ps) = true := strictIncr_tail _ _ hs1
          have hhead : ∀ e ∈ pendIdxs tsid ps, tk < e := strictIncr_head_lt _ _ hs1
          have htklo : tk < lo := hb1 tk (List.mem_cons_self _ _)
          have hb2 : ∀ b ∈ pendIdxs tsid ps, b < lo := fun b hbm =>
            hb1 b (List.mem_cons_of_mem _ hbm)
          obtain ⟨h1, h2⟩ := ih ⟨as2, ps⟩ lo hf2 hs2 hb2
          cases hres : processAudioChunk tcap tk with
          | none =>
            simp only [run, step, List.getElem?_cons_zero, List.eraseIdx_cons_zero, hres]
            rw [segChunkIdxs_append]
            refine ⟨by simpa [segChunkIdxs] using h1, ?_⟩
            intro e he
            rcases h2 e (by simpa [segChunkIdxs] using he) with hmem | hge
            · have hmem2 : e ∈ pendIdxs tsid ps := hmem
              exact Or.inl (by rw [hcons]; exact List.mem_cons_of_mem _ hmem2)
            · exact Or.inr hge
          | some segs =>
            have hmap := procChunk_map_chunkIdx tcap tk segs hres
            simp only [run, step, List.getElem?_cons_zero, List.eraseIdx_cons_zero, hres]
            rw [segChunkIdxs_append, segChunkIdxs_map_self]
            constructor
            · rw [hmap]
              apply nonDecr_replicate_append
              · exact h1
              · intro e he
                rcases h2 e he with hmem | hge
                · have hmem2 : e ∈ pendIdxs tsid ps := hmem
                  exact le_of_lt (hhead e hmem2)
                · exact le_of_lt (lt_of_lt_of_le htklo hge)
            · intro e he
              rcases List.mem_append.mp he with hseg | hrest
              · rw [hmap] at hseg
                rw [List.eq_of_mem_replicate hseg]
                exact Or.inl (by rw [hcons]; exact List.mem_cons_self _ _)
              · rcases h2 e hrest with hmem | hge
                · have hmem2 : e ∈ pendIdxs tsid ps := hmem
                  exact Or.inl (by rw [hcons]; exact List.mem_cons_of_mem _ hmem2)
                · exact Or.inr hge
        · have hcons : pendIdxs sid ((⟨tsid, tk, tcap⟩ : PendingChunk) :: ps) =
              pendIdxs sid ps := by
            simp [pendIdxs, List.filterMap_cons, ht]
          rw [hcons] at hs1 hb1
          obtain ⟨h1, h2⟩ := ih ⟨as2, ps⟩ lo hf2 hs1 hb1
          cases hres : processAudioChunk tcap tk with
          | none =>
            simp only [run, step, List.getElem?_cons_zero, List.eraseIdx_cons_zero, hres]
            rw [segChunkIdxs_append]
            refine ⟨by simpa [segChunkIdxs] using h1, ?_⟩
            intro e he
            rcases h2 e (by simpa [segChunkIdxs] using he) with hmem | hge
            · have hmem2 : e ∈ pendIdxs sid ps := hmem
              exact Or.inl (by rw [hcons]; exact hmem2)
            · exact Or.inr hge
          | some segs =>
            simp only [run, step, List.getElem?_cons_zero, List.eraseIdx_cons_zero, hres]
            rw [segChunkIdxs_append, segChunkIdxs_map_other sid tsid ht]
            refine ⟨by simpa using h1, ?_⟩
            intro e he
            rcases h2 e (by simpa using he) with hmem | hge
            · have hmem2 : e ∈ pendIdxs sid ps := hmem
              exact Or.inl (by rw [hcons]; exact hmem2)
            · exact Or.inr hge

/-- Claim C1 (counterexample): chunks 0 and 1 are submitted in order for
one session, but chunk 1's transcription completes first; the server
emits chunk 1's segment before chunk 0's (emitted chunk-index sequence
`[1, 0]`), so the subscriber stream is not monotonically non-decreasing —
nothing was buffered until the lower-sequence chunk 0 completed, and
chunk 0 was never marked lost. -/
theorem outOfOrderCompletion_emitsOutOfOrder :
    segChunkIdxs "s" (run initState
      [.startRecording "s" 0 "microphone",
       .audioChunk "s" 0 (.ok "[Alice]: zero"),
       .audioChunk "s" 1 (.ok "[Bob]: one"),
       .completeTask 1, .completeTask 0]).2 = [1, 0] ∧
    nonDecr [1, 0] = false := by
  decide

/-- Claim C1 (amended): the server performs no reordering: each chunk's
segments are broadcast, in intra-chunk order, at the moment its
asynchronous transcription completes.  Consequently the emitted chunk
indices of a session are monotonically non-decreasing only under the
condition that the per-chunk calls complete in submission order
(`fifoMono`: completions are processed first-in-first-out and the
session's chunk indices arrive strictly increasing); out-of-order
completions are broadcast out of order. -/
theorem emissionOrdered_of_fifoCompletion (sid : String) (trace : List ClientEv)
    (h : fifoMono sid 0 trace = true) :
    nonDecr (segChunkIdxs sid (run initState trace).2) = true :=
  (orderAux sid trace initState 0 h rfl
    (by intro b hb; simp [pendIdxs, initState] at hb)).1

/-- Witness for C1 on the spec's scenario with in-order completions:
chunks 0 and 1 submitted and completed in order. -/
theorem emissionOrdered_of_fifoCompletion_witness :
    fifoMono "s" 0
      [.startRecording "s" 0 "microphone",
       .audioChunk "s" 0 (.ok "[Alice]: zero"), .completeTask 0,
       .audioChunk "s" 1 (.ok "[Bob]: one"), .completeTask 0] = true ∧
    nonDecr (segChunkIdxs "s" (run initState
      [.startRecording "s" 0 "microphone",
       .audioChunk "s" 0 (.ok "[Alice]: zero"), .completeTask 0,
       .audioChunk "s" 1 (.ok "[Bob]: one"), .completeTask 0]).2) = true :=
  ⟨by decide,
   emissionOrdered_of_fifoCompletion "s"
     [.startRecording "s" 0 "microphone",
      .audioChunk "s" 0 (.ok "[Alice]: zero"), .completeTask 0,
      .audioChunk "s" 1 (.ok "[Bob]: one"), .completeTask 0] (by decide)⟩
